import Mathlib

/-!
Verification development for the ai-content-evaluator repository.

The evaluation core lives in `src/utils/data_model.py`, `src/utils/evaluator.py`
and the human-judgment branch of `src/app.py`.  This file gives a shallow
embedding of that core:

* Python floats are modelled as exact rationals (`ℚ`).  JSON numbers are kept
  as a decimal mantissa and a power-of-ten exponent so that the parser stays
  in structural data; they are converted to `ℚ` only where the code calls
  `float(...)`.  IEEE rounding of decimal literals and the half-even tie rule
  of Python's `round` are below the resolution of every statement proved here
  (no statement forces a tie or a non-representable boundary).
* `json.loads` is modelled by `jsonLoads`, an executable recursive-descent
  parser over `List Char` covering the JSON grammar (objects, arrays,
  strings with escapes, numbers with fraction/exponent, literals, the
  duplicate-key last-wins rule and the no-leading-zero rule).  The Python
  extensions `NaN`/`Infinity` and surrogate-pair decoding are not modelled;
  no statement below touches them.
* Fallible Python operations (`json.loads`, subscripting, `float(...)`,
  membership tests on non-containers) return `Option`; `none` plays the role
  of a raised exception, which the `try/except` of `_parse_claude_response`
  turns into the error fallback.
-/

namespace ContentEval

/-- JSON values as produced by the model of `json.loads`.  A number is kept as
`mant * 10 ^ exp10`; Python's `int`/`float` distinction is immaterial here
because the evaluator only ever coerces parsed scores with `float(...)`. -/
inductive Json where
  | null : Json
  | bool (b : Bool) : Json
  | num (mant : Int) (exp10 : Int) : Json
  | str (s : String) : Json
  | arr (items : List Json) : Json
  | obj (fields : List (String × Json)) : Json

/-- The rational value of a parsed decimal number. -/
def qOfSci (mant : Int) (exp10 : Int) : ℚ := (mant : ℚ) * 10 ^ exp10

/-- Opening brace character (written via its code point). -/
def lbrace : Char := Char.ofNat 123

/-- Closing brace character (written via its code point). -/
def rbrace : Char := Char.ofNat 125

/-- Whitespace as used both by `str.strip()` and by the JSON grammar
(space, tab, newline, carriage return; further Python-only whitespace such
as form feed never occurs in any statement below). -/
def isWs (c : Char) : Bool := c = ' ' || c = '\t' || c = '\n' || c = '\r'

/-- Drop leading whitespace. -/
def skipWs (cs : List Char) : List Char := cs.dropWhile isWs

/-- Model of Python `str.strip()`: drop whitespace at both ends. -/
def pyStrip (cs : List Char) : List Char :=
  ((cs.dropWhile isWs).reverse.dropWhile isWs).reverse

/-- Does the character list start with the given pattern? -/
def startsWithChs : List Char → List Char → Bool
  | [], _ => true
  | _ :: _, [] => false
  | p :: ps, c :: cs => p == c && startsWithChs ps cs

/-- Model of Python `text.split("\n")`. -/
def splitNl : List Char → List (List Char)
  | [] => [[]]
  | c :: cs =>
    if c = '\n' then [] :: splitNl cs
    else
      match splitNl cs with
      | h :: t => (c :: h) :: t
      | [] => [[c]]

/-- Model of Python `"\n".join(lines)`. -/
def joinNl : List (List Char) → List Char
  | [] => []
  | [l] => l
  | l :: ls => l ++ '\n' :: joinNl ls

/-- Is `needle` a contiguous subsequence of `hay`?  Models Python's
substring test `needle in hay` on strings. -/
def containsSeq (needle : List Char) : List Char → Bool
  | [] => startsWithChs needle []
  | c :: t => startsWithChs needle (c :: t) || containsSeq needle t

/-- Value of a decimal digit character. -/
def digitVal (c : Char) : Nat := c.toNat - '0'.toNat

/-- Natural number denoted by a list of decimal digits. -/
def digitsToNat (ds : List Char) : Nat := ds.foldl (fun a c => a * 10 + digitVal c) 0

/-- Value of a hexadecimal digit character, if it is one; the three ranges
(digits, lowercase letters, uppercase letters) are tested on code points. -/
def hexVal (c : Char) : Option Nat :=
  let n := c.toNat
  if 48 ≤ n && n ≤ 57 then some (n - 48)
  else if 97 ≤ n && n ≤ 102 then some (n - 87)
  else if 65 ≤ n && n ≤ 70 then some (n - 55)
  else none

/-- Single-character JSON string escapes. -/
def escChar (c : Char) : Option Char :=
  if c = '"' then some '"'
  else if c = '\\' then some '\\'
  else if c = '/' then some '/'
  else if c = 'b' then some (Char.ofNat 8)
  else if c = 'f' then some (Char.ofNat 12)
  else if c = 'n' then some '\n'
  else if c = 'r' then some '\r'
  else if c = 't' then some '\t'
  else none

/-- Body of a JSON string after the opening quote: returns the decoded
characters and the remainder after the closing quote.  Raw control
characters are rejected as `json.loads` does.  Fueled to keep the
recursion structural. -/
def parseStrBodyAux : Nat → List Char → Option (List Char × List Char)
  | 0, _ => none
  | _ + 1, [] => none
  | fuel + 1, c :: t =>
    if c = '"' then some ([], t)
    else if c = '\\' then
      match t with
      | [] => none
      | e :: t2 =>
        if e = 'u' then
          match t2 with
          | a :: b :: c2 :: d :: t3 =>
            match hexVal a, hexVal b, hexVal c2, hexVal d with
            | some ha, some hb, some hc, some hd =>
              (parseStrBodyAux fuel t3).map fun r =>
                (Char.ofNat (((ha * 16 + hb) * 16 + hc) * 16 + hd) :: r.1, r.2)
            | _, _, _, _ => none
          | _ => none
        else
          match escChar e with
          | some d => (parseStrBodyAux fuel t2).map fun r => (d :: r.1, r.2)
          | none => none
    else if c.toNat < 32 then none
    else (parseStrBodyAux fuel t).map fun r => (c :: r.1, r.2)

/-- Body of a JSON string, fuel chosen from the input length. -/
def parseStrBody (cs : List Char) : Option (List Char × List Char) :=
  parseStrBodyAux (cs.length + 1) cs

/-- Exponent marker part of a JSON number (`e`/`E`, optional sign, digits). -/
def parseExpPart (cs : List Char) : Option (Int × List Char) :=
  match cs with
  | c :: t =>
    if c = 'e' || c = 'E' then
      let (neg, t2) :=
        match t with
        | d :: t2 => if d = '-' then (true, t2) else if d = '+' then (false, t2) else (false, t)
        | [] => (false, t)
      let ds := t2.takeWhile Char.isDigit
      if ds = [] then none
      else
        let v : Int := (digitsToNat ds : Int)
        some (if neg then -v else v, t2.dropWhile Char.isDigit)
    else some (0, cs)
  | [] => some (0, cs)

/-- JSON number: optional minus, integer part without leading zeros,
optional fraction, optional exponent.  Returns mantissa and power of ten. -/
def parseNumber (cs : List Char) : Option ((Int × Int) × List Char) :=
  let (neg, cs1) :=
    match cs with
    | c :: t => if c = '-' then (true, t) else (false, cs)
    | [] => (false, cs)
  match cs1 with
  | [] => none
  | c :: _ =>
    if ¬ c.isDigit then none
    else
      let ds := cs1.takeWhile Char.isDigit
      let r1 := cs1.dropWhile Char.isDigit
      if 1 < ds.length && ds.headD '0' = '0' then none
      else
        let fracStep : Option (List Char × List Char) :=
          match r1 with
          | d :: t =>
            if d = '.' then
              let fds := t.takeWhile Char.isDigit
              if fds = [] then none else some (fds, t.dropWhile Char.isDigit)
            else some ([], r1)
          | [] => some ([], r1)
        match fracStep with
        | none => none
        | some (fds, r2) =>
          match parseExpPart r2 with
          | none => none
          | some (ev, r3) =>
            let m : Int := (digitsToNat (ds ++ fds) : Int)
            some ((if neg then -m else m, ev - (fds.length : Int)), r3)

/-- Insert a key/value pair into an object under construction, replacing any
existing binding of the same key in place (Python dict semantics, where
`json.loads` lets a later duplicate key win). -/
def insertKV (kvs : List (String × Json)) (k : String) (v : Json) : List (String × Json) :=
  match kvs with
  | [] => [(k, v)]
  | (k0, v0) :: rest => if k0 == k then (k0, v) :: rest else (k0, v0) :: insertKV rest k v

/-- Check that the input begins with the given literal characters. -/
def expectLit (lit : List Char) (cs : List Char) : Option (List Char) :=
  if startsWithChs lit cs then some (cs.drop lit.length) else none

mutual

/-- One JSON value, recursive descent with fuel. -/
def parseValue : Nat → List Char → Option (Json × List Char)
  | 0, _ => none
  | fuel + 1, cs =>
    match skipWs cs with
    | [] => none
    | c :: t =>
      if c = lbrace then
        match skipWs t with
        | d :: t2 => if d = rbrace then some (.obj [], t2) else parseMembers fuel [] t
        | [] => none
      else if c = '[' then
        match skipWs t with
        | d :: t2 => if d = ']' then some (.arr [], t2) else parseElems fuel [] t
        | [] => none
      else if c = '"' then
        (parseStrBody t).map fun r => (.str r.1.asString, r.2)
      else if c = 't' then (expectLit ("rue".data) t).map fun r => (.bool true, r)
      else if c = 'f' then (expectLit ("alse".data) t).map fun r => (.bool false, r)
      else if c = 'n' then (expectLit ("ull".data) t).map fun r => (.null, r)
      else if c = '-' || c.isDigit then
        (parseNumber (c :: t)).map fun r => (.num r.1.1 r.1.2, r.2)
      else none

/-- Members of a JSON object after the opening brace (nonempty case). -/
def parseMembers : Nat → List (String × Json) → List Char → Option (Json × List Char)
  | 0, _, _ => none
  | fuel + 1, acc, cs =>
    match skipWs cs with
    | c :: t =>
      if c = '"' then
        match parseStrBody t with
        | some (key, r1) =>
          match skipWs r1 with
          | d :: r2 =>
            if d = ':' then
              match parseValue fuel r2 with
              | some (v, r3) =>
                let acc2 := insertKV acc key.asString v
                match skipWs r3 with
                | e :: r4 =>
                  if e = ',' then parseMembers fuel acc2 r4
                  else if e = rbrace then some (.obj acc2, r4)
                  else none
                | [] => none
              | none => none
            else none
          | [] => none
        | none => none
      else none
    | [] => none

/-- Elements of a JSON array after the opening bracket (nonempty case). -/
def parseElems : Nat → List Json → List Char → Option (Json × List Char)
  | 0, _, _ => none
  | fuel + 1, acc, cs =>
    match parseValue fuel cs with
    | some (v, r1) =>
      match skipWs r1 with
      | e :: r2 =>
        if e = ',' then parseElems fuel (acc ++ [v]) r2
        else if e = ']' then some (.arr (acc ++ [v]), r2)
        else none
      | [] => none
    | none => none

end

/-- Core of the `json.loads` model: parse one value and require that only
whitespace remains. -/
def jsonLoadsCore (cs : List Char) : Option Json :=
  match parseValue (cs.length + 1) cs with
  | some (v, r) => if skipWs r = [] then some v else none
  | none => none

/-- Model of `json.loads` on a character list.  Surrounding whitespace is
insignificant, which is expressed by stripping before parsing. -/
def jsonLoads (cs : List Char) : Option Json := jsonLoadsCore (pyStrip cs)

/-!  `src/utils/data_model.py`  -/

/-- Individual criterion evaluation (`CriterionScore` in `data_model.py`).
The `explanation` field is typed `Json` because `_parse_claude_response`
copies the judge's `explanation` value as-is, without checking that it is a
string; every explanation the code itself writes is a string literal. -/
structure CriterionScore where
  score : ℚ
  explanation : Json
  weight : ℚ

/-- A score map: criterion key to `CriterionScore`, in insertion order
(Python dict). -/
abbrev ScoreMap := List (String × CriterionScore)

/-- Complete evaluation of a piece of content (`Evaluation` in
`data_model.py`). -/
@[ext]
structure Evaluation where
  id : String
  timestamp : String
  use_case : String
  content : String
  context : String
  ai_scores : ScoreMap
  ai_overall_score : ℚ
  ai_decision : String
  human_scores : Option ScoreMap := none
  human_overall_score : Option ℚ := none
  human_decision : Option String := none
  human_feedback : Option String := none

/-- Serialized form of a `CriterionScore` as produced by `dataclasses.asdict`. -/
structure CriterionScoreDict where
  score : ℚ
  explanation : Json
  weight : ℚ

/-- Serialized form of an `Evaluation` as produced by `dataclasses.asdict`:
nested dataclasses become dictionaries, optional fields absent in the record
are serialized as null (`none`). -/
structure EvaluationDict where
  id : String
  timestamp : String
  use_case : String
  content : String
  context : String
  ai_scores : List (String × CriterionScoreDict)
  ai_overall_score : ℚ
  ai_decision : String
  human_scores : Option (List (String × CriterionScoreDict))
  human_overall_score : Option ℚ
  human_decision : Option String
  human_feedback : Option String

/-- `asdict` on one criterion score. -/
def CriterionScore.to_dict (c : CriterionScore) : CriterionScoreDict :=
  ⟨c.score, c.explanation, c.weight⟩

/-- `CriterionScore(**v)` on a serialized criterion score. -/
def CriterionScoreDict.toScore (d : CriterionScoreDict) : CriterionScore :=
  ⟨d.score, d.explanation, d.weight⟩

/-- `Evaluation.to_dict`: convert to a dictionary for JSON storage. -/
def Evaluation.to_dict (e : Evaluation) : EvaluationDict where
  id := e.id
  timestamp := e.timestamp
  use_case := e.use_case
  content := e.content
  context := e.context
  ai_scores := e.ai_scores.map fun kv => (kv.1, kv.2.to_dict)
  ai_overall_score := e.ai_overall_score
  ai_decision := e.ai_decision
  human_scores := e.human_scores.map fun m => m.map fun kv => (kv.1, kv.2.to_dict)
  human_overall_score := e.human_overall_score
  human_decision := e.human_decision
  human_feedback := e.human_feedback

/-- `Evaluation.from_dict`: rebuild the record, converting nested
`CriterionScore` dictionaries back to objects.  The Python guard
`if data.get('human_scores'):` skips the conversion when the field is `None`
(and would also skip it for an empty dict, for which conversion is the
identity anyway, so mapping over the `Option` is extensionally faithful). -/
def Evaluation.from_dict (d : EvaluationDict) : Evaluation where
  id := d.id
  timestamp := d.timestamp
  use_case := d.use_case
  content := d.content
  context := d.context
  ai_scores := d.ai_scores.map fun kv => (kv.1, kv.2.toScore)
  ai_overall_score := d.ai_overall_score
  ai_decision := d.ai_decision
  human_scores := d.human_scores.map fun m => m.map fun kv => (kv.1, kv.2.toScore)
  human_overall_score := d.human_overall_score
  human_decision := d.human_decision
  human_feedback := d.human_feedback

/-- One entry of a criteria registry (`data_model.py` criterion dicts). -/
structure CriterionInfo where
  name : String
  description : String
  weight : ℚ

/-- A criteria set: criterion key to definition, in declaration order. -/
abbrev Criteria := List (String × CriterionInfo)

/-- `MARKETING_COPY_CRITERIA` from `data_model.py`. -/
def MARKETING_COPY_CRITERIA : Criteria :=
  [ ("cultural_appropriateness",
      ⟨"Cultural Appropriateness",
       "Idioms, cultural references, and tone appropriate for target culture", 0.30⟩),
    ("persuasiveness",
      ⟨"Persuasiveness", "Likely to drive action and conversion", 0.25⟩),
    ("brand_voice",
      ⟨"Brand Voice Consistency",
       "Matches Amazon's brand voice in the target language", 0.20⟩),
    ("grammar_fluency",
      ⟨"Grammar & Fluency", "Natural, error-free language", 0.15⟩),
    ("semantic_accuracy",
      ⟨"Semantic Accuracy", "Conveys the intended message accurately", 0.10⟩) ]

/-- `BILINGUAL_COMPLIANCE_CRITERIA` from `data_model.py`. -/
def BILINGUAL_COMPLIANCE_CRITERIA : Criteria :=
  [ ("completeness",
      ⟨"Completeness", "Both languages present, all content translated", 0.25⟩),
    ("accuracy",
      ⟨"Translation Accuracy", "Meaning preserved, no mistranslations", 0.25⟩),
    ("fluency",
      ⟨"Fluency", "Natural and readable in target language", 0.20⟩),
    ("terminology",
      ⟨"Terminology Consistency", "Technical/product terms used correctly", 0.15⟩),
    ("regulatory_compliance",
      ⟨"Regulatory Compliance",
       "Safety warnings and legal text properly translated", 0.15⟩) ]

/-- `AUTO_PASS_THRESHOLD` from `data_model.py`. -/
def AUTO_PASS_THRESHOLD : ℚ := 4.0

/-- `AUTO_FAIL_THRESHOLD` from `data_model.py`. -/
def AUTO_FAIL_THRESHOLD : ℚ := 2.5

/-- `get_decision` from `data_model.py`: determine auto-pass/fail/review
based on score. -/
def get_decision (overall_score : ℚ) : String :=
  if overall_score ≥ AUTO_PASS_THRESHOLD then "auto_pass"
  else if overall_score < AUTO_FAIL_THRESHOLD then "auto_fail"
  else "human_review"

/-!  `src/utils/evaluator.py`  -/

/-- Model of Python `round(x, 2)` over exact rationals.  Tie-breaking (Python
rounds half to even on binary floats) is modelled as round-half-up; no
statement in this file exercises a tie. -/
def round2 (x : ℚ) : ℚ := ((round (x * 100) : ℤ) : ℚ) / 100

/-- Model of Python `key in container` on a parsed JSON value: membership for
dicts and lists, substring test for strings, `TypeError` (`none`) otherwise. -/
def pyIn (key : String) (j : Json) : Option Bool :=
  match j with
  | .obj kvs => some (kvs.any fun kv => kv.1 == key)
  | .arr vs =>
    some (vs.any fun v =>
      match v with
      | .str s => s == key
      | _ => false)
  | .str s => some (containsSeq key.data s.data)
  | _ => none

/-- Model of Python `container[key]` for a string key on a parsed JSON value:
dict lookup (`none` is `KeyError` for a missing key, `TypeError` for any
non-dict container). -/
def pyIndex (j : Json) (key : String) : Option Json :=
  match j with
  | .obj kvs => (kvs.find? fun kv => kv.1 == key).map Prod.snd
  | _ => none

/-- Decimal literal accepted by Python `float(str)`: surrounding whitespace,
optional sign, digits with optional fraction and exponent (`inf`/`nan` and
underscore separators are not modelled; no statement here uses them). -/
def pyFloatOfStr (cs : List Char) : Option ℚ :=
  let cs1 := pyStrip cs
  let (neg, cs2) :=
    match cs1 with
    | c :: t => if c = '-' then (true, t) else if c = '+' then (false, t) else (false, cs1)
    | [] => (false, cs1)
  let ds := cs2.takeWhile Char.isDigit
  let r1 := cs2.dropWhile Char.isDigit
  let fracStep : Option (List Char × List Char) :=
    match r1 with
    | d :: t =>
      if d = '.' then some (t.takeWhile Char.isDigit, t.dropWhile Char.isDigit)
      else some ([], r1)
    | [] => some ([], r1)
  match fracStep with
  | none => none
  | some (fds, r2) =>
    if ds = [] && fds = [] then none
    else
      match parseExpPart r2 with
      | none => none
      | some (ev, r3) =>
        if r3 = [] then
          let m : Int := (digitsToNat (ds ++ fds) : Int)
          some (qOfSci (if neg then -m else m) (ev - (fds.length : Int)))
        else none

/-- Model of Python `float(x)` on a parsed JSON value: numbers pass through,
booleans coerce to 0/1, numeric strings are parsed, everything else raises
(`none`). -/
def pyFloat : Json → Option ℚ
  | .num m e => some (qOfSci m e)
  | .bool b => some (if b then 1 else 0)
  | .str s => pyFloatOfStr s.data
  | _ => none

/-- The body of the criteria loop of `_parse_claude_response` for one
criterion: if the key is in the parsed response, coerce its `score` with
`float(...)` and copy its `explanation` as-is, with the weight always taken
from the registry entry; otherwise fall back for this key alone.  `none`
models an exception escaping the loop (membership test on a non-container,
subscripting a non-dict, a missing `score`/`explanation` key, or a
non-coercible score), which the surrounding `try/except` turns into the
error fallback. -/
def entryResult (scores_dict : Json) (key : String) (info : CriterionInfo) :
    Option CriterionScore :=
  match pyIn key scores_dict with
  | none => none
  | some true =>
    match pyIndex scores_dict key with
    | none => none
    | some v =>
      match (pyIndex v "score").bind pyFloat, pyIndex v "explanation" with
      | some s, some ex => some ⟨s, ex, info.weight⟩
      | _, _ => none
  | some false =>
    some ⟨3, Json.str "Score not provided by evaluator", info.weight⟩

/-- The criteria loop of `_parse_claude_response`: build the score map from
the parsed response, one criterion at a time; any exception (`none`) aborts
the whole loop. -/
def buildScores (scores_dict : Json) : Criteria → Option ScoreMap
  | [] => some []
  | (key, info) :: rest =>
    match entryResult scores_dict key info with
    | none => none
    | some entry =>
      match buildScores scores_dict rest with
      | none => none
      | some restMap => some ((key, entry) :: restMap)

/-- The fallback map produced by the `except` branch of
`_parse_claude_response`: every criterion gets the neutral score. -/
def errorFallbackMap (criteria : Criteria) : ScoreMap :=
  criteria.map fun ki => (ki.1, ⟨3, Json.str "Error parsing response", ki.2.weight⟩)

/-- The text-preprocessing step of `_parse_claude_response`: strip
whitespace, then, if the text starts with a fence marker, drop the first and
last line. -/
def preprocessResponse (response_text : List Char) : List Char :=
  let t := pyStrip response_text
  if startsWithChs ("```".data) t then joinNl (((splitNl t).drop 1).dropLast) else t

/-- `_parse_claude_response` from `evaluator.py`: parse the judge's JSON
response into `CriterionScore` objects, falling back to neutral scores on any
exception. -/
def _parse_claude_response (response_text : List Char) (criteria : Criteria) : ScoreMap :=
  match jsonLoads (preprocessResponse response_text) with
  | none => errorFallbackMap criteria
  | some scores_dict => (buildScores scores_dict criteria).getD (errorFallbackMap criteria)

/-- `_calculate_overall_score` from `evaluator.py`: weighted average of all
criterion scores; the `criteria` parameter is unused in the source as well. -/
def _calculate_overall_score (ai_scores : ScoreMap) (criteria : Criteria) : ℚ :=
  let totals := ai_scores.foldl
    (fun acc kv => (acc.1 + kv.2.score * kv.2.weight, acc.2 + kv.2.weight)) ((0 : ℚ), (0 : ℚ))
  if totals.2 > 0 then round2 (totals.1 / totals.2) else 3

/-- `_get_criteria` from `evaluator.py`; `none` models the `ValueError`
raised for an unknown use case. -/
def _get_criteria (use_case : String) : Option Criteria :=
  if use_case = "marketing_copy" then some MARKETING_COPY_CRITERIA
  else if use_case = "bilingual_compliance" then some BILINGUAL_COMPLIANCE_CRITERIA
  else none

/-- `evaluate_content` from `evaluator.py`, with the external judge call
replaced by its response text and the generated id/timestamp passed in as
parameters (the prompt built from the inputs does not influence any field of
the record). -/
def evaluate_content (id timestamp content use_case context : String)
    (response_text : List Char) : Option Evaluation :=
  (_get_criteria use_case).map fun criteria =>
    let ai_scores := _parse_claude_response response_text criteria
    let overall_score := _calculate_overall_score ai_scores criteria
    let decision := get_decision overall_score
    { id := id, timestamp := timestamp, use_case := use_case, content := content,
      context := context, ai_scores := ai_scores, ai_overall_score := overall_score,
      ai_decision := decision }

/-!  `src/app.py`, human-judgment branch (lines 126-187)  -/

/-- Failure of the human-judgment attachment. -/
inductive AttachError where
  | AlreadyJudged : AttachError

/-- Python truthiness of the optional `human_overall_score` field, the guard
`if evaluation.human_overall_score:` at app.py line 126 (`None` and `0.0`
are falsy). -/
def pyTruthyQ : Option ℚ → Bool
  | none => false
  | some v => !decide (v = 0)

/-- The human score map built at app.py lines 177-180: registry weights and
the literal explanation marker. -/
def humanScoreMapOf (criteria : Criteria) (human_scores : String → ℚ) : ScoreMap :=
  criteria.map fun ki => (ki.1, ⟨human_scores ki.1, Json.str "Human rating", ki.2.weight⟩)

/-- The inline human overall-score computation at app.py lines 169-171:
sum of score times registry weight over the slider map (which covers exactly
the criteria keys), divided by the sum of registry weights, rounded to two
decimals. -/
def humanOverallOf (criteria : Criteria) (human_scores : String → ℚ) : ℚ :=
  round2 ((criteria.map fun ki => human_scores ki.1 * ki.2.weight).sum /
    (criteria.map fun ki => ki.2.weight).sum)

/-- The record after the human-judgment branch has written its four fields
(app.py lines 177-183). -/
def attachedRecord (e : Evaluation) (criteria : Criteria) (human_scores : String → ℚ)
    (human_feedback : String) : Evaluation :=
  { e with
    human_scores := some (humanScoreMapOf criteria human_scores),
    human_overall_score := some (humanOverallOf criteria human_scores),
    human_decision := some (get_decision (humanOverallOf criteria human_scores)),
    human_feedback := some human_feedback }

/-- The human-judgment attachment of app.py: when `human_overall_score` is
already truthy the form is not rendered, so no second judgment can be
attached (modelled as the `AlreadyJudged` error, leaving the record as it
was); otherwise the submit handler computes the overall score, the decision,
and writes the four human fields. -/
def attachHumanJudgment (e : Evaluation) (criteria : Criteria)
    (human_scores : String → ℚ) (human_feedback : String) :
    Except AttachError Evaluation :=
  if pyTruthyQ e.human_overall_score then .error .AlreadyJudged
  else .ok (attachedRecord e criteria human_scores human_feedback)

/-!  Helper lemmas about the text preprocessing  -/

/-- The backtick character. -/
def bq : Char := Char.ofNat 96

theorem fence_data : "```".data = [bq, bq, bq] := rfl

theorem isWs_bq : isWs bq = false := rfl

theorem dropWhile_head_false {α} {p : α → Bool} {l : List α} {a : α}
    (h : (l.dropWhile p).head? = some a) : p a = false := by
  have h2 : l.dropWhile p ≠ [] := by
    intro hn
    rw [hn] at h
    exact Option.noConfusion h
  have h3 := List.head_dropWhile_not p l h2
  rw [List.head?_eq_head h2] at h
  rw [Option.some.inj h] at h3
  simpa using h3

theorem dropWhile_getLast? {α} (p : α → Bool) (l : List α) :
    l.dropWhile p = [] ∨ (l.dropWhile p).getLast? = l.getLast? := by
  induction l with
  | nil => left; rfl
  | cons a t ih =>
    by_cases h : p a
    · rw [List.dropWhile_cons, if_pos h]
      rcases ih with h1 | h1
      · left; exact h1
      · cases t with
        | nil =>
          left
          simp [List.dropWhile]
        | cons b t2 =>
          right
          rw [h1]
          exact List.getLast?_cons_cons.symm
    · right
      rw [List.dropWhile_cons, if_neg h]

theorem pyStrip_eq_self {l : List Char}
    (h1 : ∀ a, l.head? = some a → isWs a = false)
    (h2 : ∀ a, l.getLast? = some a → isWs a = false) :
    pyStrip l = l := by
  unfold pyStrip
  have e1 : l.dropWhile isWs = l := by
    cases l with
    | nil => rfl
    | cons a t =>
      have ha := h1 a rfl
      simp [List.dropWhile_cons, ha]
  rw [e1]
  have e2 : l.reverse.dropWhile isWs = l.reverse := by
    cases hr : l.reverse with
    | nil => rfl
    | cons a t =>
      have ha : l.getLast? = some a := by
        rw [← List.head?_reverse, hr]
        rfl
      have hb := h2 a ha
      simp [List.dropWhile_cons, hb]
  rw [e2, List.reverse_reverse]

theorem pyStrip_head {l : List Char} {a : Char}
    (h : (pyStrip l).head? = some a) : isWs a = false := by
  unfold pyStrip at h
  rw [List.head?_reverse] at h
  rcases dropWhile_getLast? isWs (l.dropWhile isWs).reverse with h1 | h1
  · rw [h1] at h
    exact Option.noConfusion h
  · rw [h1, List.getLast?_reverse] at h
    exact dropWhile_head_false h

theorem pyStrip_last {l : List Char} {a : Char}
    (h : (pyStrip l).getLast? = some a) : isWs a = false := by
  unfold pyStrip at h
  rw [List.getLast?_reverse] at h
  exact dropWhile_head_false h

theorem pyStrip_idem (l : List Char) : pyStrip (pyStrip l) = pyStrip l :=
  pyStrip_eq_self (fun _ h => pyStrip_head h) (fun _ h => pyStrip_last h)

theorem splitNl_ne_nil (cs : List Char) : splitNl cs ≠ [] := by
  cases cs with
  | nil => simp [splitNl]
  | cons c t =>
    by_cases h : c = '\n'
    · simp [splitNl, h]
    · simp only [splitNl, if_neg h]
      cases splitNl t <;> simp

theorem splitNl_all_not {z : List Char} (hz : ∀ c ∈ z, c ≠ '\n') : splitNl z = [z] := by
  induction z with
  | nil => rfl
  | cons c t ih =>
    have hc : c ≠ '\n' := hz c (List.mem_cons_self c t)
    have iht := ih fun x hx => hz x (List.mem_cons_of_mem c hx)
    simp [splitNl, if_neg hc, iht]

theorem splitNl_front {p rest : List Char} (hp : ∀ c ∈ p, c ≠ '\n') :
    splitNl (p ++ '\n' :: rest) = p :: splitNl rest := by
  induction p with
  | nil => simp [splitNl]
  | cons c t ih =>
    have hc : c ≠ '\n' := hp c (List.mem_cons_self c t)
    have iht := ih fun x hx => hp x (List.mem_cons_of_mem c hx)
    simp [splitNl, if_neg hc, iht]

theorem splitNl_back {j z : List Char} (hz : ∀ c ∈ z, c ≠ '\n') :
    splitNl (j ++ '\n' :: z) = splitNl j ++ [z] := by
  induction j with
  | nil => simp [splitNl, splitNl_all_not hz]
  | cons c t ih =>
    by_cases h : c = '\n'
    · subst h
      simp [splitNl, ih]
    · simp only [List.cons_append, splitNl, if_neg h]
      rw [List.append_eq, ih]
      cases hs : splitNl t with
      | nil => exact absurd hs (splitNl_ne_nil t)
      | cons h0 t0 => simp

theorem joinNl_splitNl (cs : List Char) : joinNl (splitNl cs) = cs := by
  induction cs with
  | nil => rfl
  | cons c t ih =>
    by_cases h : c = '\n'
    · subst h
      simp only [splitNl, if_pos rfl]
      cases hs : splitNl t with
      | nil => exact absurd hs (splitNl_ne_nil t)
      | cons h0 t0 =>
        rw [hs] at ih
        simp [joinNl, ih]
    · simp only [splitNl, if_neg h]
      cases hs : splitNl t with
      | nil => exact absurd hs (splitNl_ne_nil t)
      | cons h0 t0 =>
        rw [hs] at ih
        cases t0 with
        | nil =>
          simp only [joinNl] at ih ⊢
          rw [ih]
        | cons h1 t1 =>
          simp only [joinNl] at ih ⊢
          rw [List.cons_append, ih]

theorem preprocess_wrap {lang j : List Char} (hlang : ∀ c ∈ lang, c ≠ '\n') :
    preprocessResponse (("```".data ++ lang) ++ '\n' :: (j ++ '\n' :: "```".data)) = j := by
  set w := ("```".data ++ lang) ++ '\n' :: (j ++ '\n' :: "```".data) with hw
  have hshape : w = (("```".data ++ lang) ++ '\n' :: j) ++ ('\n' :: "```".data) := by
    rw [hw]
    simp
  have hhead : w.head? = some bq := by
    rw [hw, fence_data]
    rfl
  have hlast : w.getLast? = some bq := by
    rw [hshape, List.getLast?_append]
    rfl
  have hstrip : pyStrip w = w := by
    apply pyStrip_eq_self
    · intro a ha
      rw [hhead] at ha
      rw [← Option.some.inj ha]
      exact isWs_bq
    · intro a ha
      rw [hlast] at ha
      rw [← Option.some.inj ha]
      exact isWs_bq
  have hfence : startsWithChs ("```".data) w = true := by
    rw [hw, fence_data]
    rfl
  have hsplit : splitNl w = ("```".data ++ lang) :: (splitNl j ++ ["```".data]) := by
    rw [hw, splitNl_front, splitNl_back]
    · intro c hc
      rw [fence_data] at hc
      simp only [List.mem_cons, List.not_mem_nil, or_false] at hc
      rcases hc with rfl | rfl | rfl <;> decide
    · intro c hc
      rcases List.mem_append.mp hc with hc | hc
      · rw [fence_data] at hc
        simp only [List.mem_cons, List.not_mem_nil, or_false] at hc
        rcases hc with rfl | rfl | rfl <;> decide
      · exact hlang c hc
  unfold preprocessResponse
  rw [hstrip, if_pos hfence, hsplit]
  simp only [List.drop_succ_cons, List.drop_zero, List.dropLast_concat]
  exact joinNl_splitNl j

theorem jsonLoadsCore_bq (t : List Char) : jsonLoadsCore (bq :: t) = none := rfl

theorem jsonLoads_fence_none {j : List Char}
    (hf : startsWithChs ("```".data) (pyStrip j) = true) : jsonLoads j = none := by
  cases hp : pyStrip j with
  | nil =>
    rw [hp, fence_data] at hf
    exact absurd hf (by decide)
  | cons c t =>
    rw [hp, fence_data] at hf
    simp only [startsWithChs, Bool.and_eq_true, beq_iff_eq] at hf
    have hc : c = bq := hf.1.symm
    unfold jsonLoads
    rw [hp, hc]
    exact jsonLoadsCore_bq t

theorem jsonLoads_not_fence {j : List Char} (hj : (jsonLoads j).isSome = true) :
    startsWithChs ("```".data) (pyStrip j) = false := by
  cases hb : startsWithChs ("```".data) (pyStrip j)
  · rfl
  · rw [jsonLoads_fence_none hb] at hj
    exact absurd hj (by decide)

theorem jsonLoads_pyStrip (j : List Char) : jsonLoads (pyStrip j) = jsonLoads j := by
  unfold jsonLoads
  rw [pyStrip_idem]

/-!  Helper lemmas about aggregation and rounding  -/

theorem foldl_totals (m : ScoreMap) (a b : ℚ) :
    m.foldl (fun acc kv => (acc.1 + kv.2.score * kv.2.weight, acc.2 + kv.2.weight)) (a, b)
      = (a + (m.map fun kv => kv.2.score * kv.2.weight).sum,
         b + (m.map fun kv => kv.2.weight).sum) := by
  induction m generalizing a b with
  | nil => simp
  | cons kv t ih => simp [List.foldl_cons, ih, add_assoc]

theorem calc_eq (m : ScoreMap) (criteria : Criteria) :
    _calculate_overall_score m criteria =
      if 0 < (m.map fun kv => kv.2.weight).sum
      then round2 ((m.map fun kv => kv.2.score * kv.2.weight).sum /
        (m.map fun kv => kv.2.weight).sum)
      else 3 := by
  unfold _calculate_overall_score
  rw [foldl_totals]
  simp [gt_iff_lt]

theorem round2_le_round2 {x y : ℚ} (h : x ≤ y) : round2 x ≤ round2 y := by
  unfold round2
  have h1 : round (x * 100) ≤ round (y * 100) := by
    rw [round_eq, round_eq]
    exact Int.floor_le_floor (by linarith)
  have h2 : ((round (x * 100) : ℤ) : ℚ) ≤ ((round (y * 100) : ℤ) : ℚ) := Int.cast_le.mpr h1
  linarith

theorem round2_intCast (n : ℤ) : round2 ((n : ℚ)) = n := by
  unfold round2
  have h : ((n : ℚ)) * 100 = ((n * 100 : ℤ) : ℚ) := by push_cast; ring
  rw [h, round_intCast]
  push_cast
  field_simp

theorem round2_one : round2 1 = 1 := by simpa using round2_intCast 1

theorem round2_three : round2 3 = 3 := by simpa using round2_intCast 3

theorem round2_five : round2 5 = 5 := by simpa using round2_intCast 5

theorem calc_bound {m : ScoreMap} (criteria : Criteria)
    (hw : ∀ kv ∈ m, 0 ≤ kv.2.weight)
    (hs : ∀ kv ∈ m, 1 ≤ kv.2.score ∧ kv.2.score ≤ 5) :
    1 ≤ _calculate_overall_score m criteria ∧ _calculate_overall_score m criteria ≤ 5 := by
  rw [calc_eq]
  by_cases hpos : 0 < (m.map fun kv => kv.2.weight).sum
  · rw [if_pos hpos]
    have h1 : (m.map fun kv => kv.2.weight).sum ≤
        (m.map fun kv => kv.2.score * kv.2.weight).sum := by
      apply List.sum_le_sum
      intro kv hkv
      exact le_mul_of_one_le_left (hw kv hkv) (hs kv hkv).1
    have h2 : (m.map fun kv => kv.2.score * kv.2.weight).sum ≤
        5 * (m.map fun kv => kv.2.weight).sum := by
      rw [← List.sum_map_mul_left]
      apply List.sum_le_sum
      intro kv hkv
      exact mul_le_mul_of_nonneg_right (hs kv hkv).2 (hw kv hkv)
    constructor
    · have hd : (1 : ℚ) ≤ (m.map fun kv => kv.2.score * kv.2.weight).sum /
          (m.map fun kv => kv.2.weight).sum := (le_div_iff₀ hpos).mpr (by linarith)
      calc (1 : ℚ) = round2 1 := round2_one.symm
        _ ≤ _ := round2_le_round2 hd
    · have hd : (m.map fun kv => kv.2.score * kv.2.weight).sum /
          (m.map fun kv => kv.2.weight).sum ≤ 5 := (div_le_iff₀ hpos).mpr (by linarith)
      calc round2 _ ≤ round2 5 := round2_le_round2 hd
        _ = 5 := round2_five
  · rw [if_neg hpos]
    norm_num

/-!  Helper lemmas about the parsing loop  -/

theorem buildScores_shape {scores_dict : Json} {criteria : Criteria} {m : ScoreMap}
    (h : buildScores scores_dict criteria = some m) :
    m.map Prod.fst = criteria.map Prod.fst
    ∧ m.map (fun kv => kv.2.weight) = criteria.map (fun ki => ki.2.weight) := by
  induction criteria generalizing m with
  | nil =>
    simp only [buildScores, Option.some.injEq] at h
    rw [← h]
    exact ⟨rfl, rfl⟩
  | cons ki rest ih =>
    obtain ⟨key, info⟩ := ki
    simp only [buildScores] at h
    cases he : entryResult scores_dict key info with
    | none =>
      rw [he] at h
      exact absurd h (by simp)
    | some entry =>
      rw [he] at h
      cases hr : buildScores scores_dict rest with
      | none =>
        rw [hr] at h
        exact absurd h (by simp)
      | some restMap =>
        rw [hr] at h
        simp only [Option.some.injEq] at h
        have hweight : entry.weight = info.weight := by
          unfold entryResult at he
          repeat' split at he
          all_goals first
            | exact Option.noConfusion he
            | (injection he with h2; rw [← h2])
        rw [← h]
        obtain ⟨ihk, ihw⟩ := ih hr
        constructor
        · simp [ihk]
        · simp [ihw, hweight]

theorem parse_keys (rt : List Char) (criteria : Criteria) :
    (_parse_claude_response rt criteria).map Prod.fst = criteria.map Prod.fst := by
  unfold _parse_claude_response
  cases jsonLoads (preprocessResponse rt) with
  | none => simp [errorFallbackMap, List.map_map]
  | some sd =>
    show List.map Prod.fst ((buildScores sd criteria).getD (errorFallbackMap criteria))
        = List.map Prod.fst criteria
    cases hb : buildScores sd criteria with
    | none => simp [errorFallbackMap, List.map_map]
    | some m => simpa using (buildScores_shape hb).1

theorem parse_weights (rt : List Char) (criteria : Criteria) :
    (_parse_claude_response rt criteria).map (fun kv => kv.2.weight)
      = criteria.map (fun ki => ki.2.weight) := by
  unfold _parse_claude_response
  cases jsonLoads (preprocessResponse rt) with
  | none => simp [errorFallbackMap, List.map_map]
  | some sd =>
    show List.map (fun kv => kv.2.weight) ((buildScores sd criteria).getD (errorFallbackMap criteria))
        = List.map (fun ki => ki.2.weight) criteria
    cases hb : buildScores sd criteria with
    | none => simp [errorFallbackMap, List.map_map]
    | some m => simpa using (buildScores_shape hb).2

/-!  Claim theorems  -/

/-- Claim C1: the decision policy is a total function on the modelled scores
(total by construction of `get_decision`, which never raises): it returns
auto_pass iff the score is at least 4.0, auto_fail iff the score is below
2.5, and human_review otherwise; in particular 4.0 is auto_pass, 3.999 and
2.5 are human_review, and 2.499 is auto_fail. -/
theorem claim_C1 :
    (∀ s : ℚ,
      (get_decision s = "auto_pass" ↔ 4 ≤ s)
      ∧ (get_decision s = "auto_fail" ↔ s < 2.5)
      ∧ (get_decision s = "human_review" ↔ 2.5 ≤ s ∧ s < 4))
    ∧ get_decision 4 = "auto_pass"
    ∧ get_decision 3.999 = "human_review"
    ∧ get_decision 2.5 = "human_review"
    ∧ get_decision 2.499 = "auto_fail" := by
  have hpass : AUTO_PASS_THRESHOLD = 4 := by norm_num [AUTO_PASS_THRESHOLD]
  have hfail : AUTO_FAIL_THRESHOLD = 2.5 := rfl
  refine ⟨fun s => ?_, ?_, ?_, ?_, ?_⟩
  · unfold get_decision
    rw [hpass, hfail]
    by_cases h1 : s ≥ 4
    · rw [if_pos h1]
      exact ⟨⟨fun _ => by linarith, fun _ => rfl⟩,
             ⟨fun hh => absurd hh (by decide), fun hh => (by linarith : False).elim⟩,
             ⟨fun hh => absurd hh (by decide), fun hh => (by linarith [hh.2] : False).elim⟩⟩
    · rw [if_neg h1]
      by_cases h2 : s < 2.5
      · rw [if_pos h2]
        exact ⟨⟨fun hh => absurd hh (by decide), fun hh => (by linarith : False).elim⟩,
               ⟨fun _ => h2, fun _ => rfl⟩,
               ⟨fun hh => absurd hh (by decide), fun hh => (by linarith [hh.1] : False).elim⟩⟩
      · rw [if_neg h2]
        exact ⟨⟨fun hh => absurd hh (by decide), fun hh => (by linarith : False).elim⟩,
               ⟨fun hh => absurd hh (by decide), fun hh => (h2 hh).elim⟩,
               ⟨fun _ => ⟨by linarith [not_lt.mp h2], by linarith [not_le.mp h1]⟩,
                fun _ => rfl⟩⟩
  · unfold get_decision
    rw [if_pos (by norm_num [AUTO_PASS_THRESHOLD])]
  · unfold get_decision
    rw [if_neg (by norm_num [AUTO_PASS_THRESHOLD]),
        if_neg (by norm_num [AUTO_FAIL_THRESHOLD])]
  · unfold get_decision
    rw [if_neg (by norm_num [AUTO_PASS_THRESHOLD]),
        if_neg (by norm_num [AUTO_FAIL_THRESHOLD])]
  · unfold get_decision
    rw [if_neg (by norm_num [AUTO_PASS_THRESHOLD]),
        if_pos (by norm_num [AUTO_FAIL_THRESHOLD])]

/-- Claim C2: for every raw response text and every criteria set, the parser
never fails outward (it is total by construction, the `except` branch being
the fallback) and returns a map whose key set is exactly the criteria set's
key set; and on the unparseable text "not json" every criterion gets score
3.0, explanation "Error parsing response", and its registry weight. -/
theorem claim_C2 :
    (∀ (response_text : List Char) (criteria : Criteria),
      (_parse_claude_response response_text criteria).map Prod.fst = criteria.map Prod.fst)
    ∧ (∀ criteria : Criteria,
      _parse_claude_response ("not json".data) criteria =
        criteria.map fun ki =>
          (ki.1, ⟨3, Json.str "Error parsing response", ki.2.weight⟩)) := by
  refine ⟨parse_keys, fun criteria => ?_⟩
  have h : jsonLoads (preprocessResponse ("not json".data)) = none := rfl
  unfold _parse_claude_response
  rw [h]
  rfl

/-- Claim C4: the aggregator returns the weighted average rounded to two
decimals, and the neutral default 3.0 when the map is empty or the total
weight is zero; all scores 5 with nonzero total weight aggregate to 5.0,
all scores 1 to 1.0.  (Weights are nonnegative for every score map the
system builds, since they always come from the registry.) -/
theorem claim_C4 :
    (∀ (m : ScoreMap) (criteria : Criteria), (∀ kv ∈ m, 0 ≤ kv.2.weight) →
      _calculate_overall_score m criteria =
        if (m.map fun kv => kv.2.weight).sum = 0 then 3
        else round2 ((m.map fun kv => kv.2.score * kv.2.weight).sum /
          (m.map fun kv => kv.2.weight).sum))
    ∧ (∀ criteria : Criteria, _calculate_overall_score [] criteria = 3)
    ∧ (∀ (m : ScoreMap) (criteria : Criteria), (∀ kv ∈ m, kv.2.score = 5) →
        (∀ kv ∈ m, 0 ≤ kv.2.weight) → (m.map fun kv => kv.2.weight).sum ≠ 0 →
        _calculate_overall_score m criteria = 5)
    ∧ (∀ (m : ScoreMap) (criteria : Criteria), (∀ kv ∈ m, kv.2.score = 1) →
        (∀ kv ∈ m, 0 ≤ kv.2.weight) → (m.map fun kv => kv.2.weight).sum ≠ 0 →
        _calculate_overall_score m criteria = 1) := by
  have hconst : ∀ (c : ℚ) (m : ScoreMap) (criteria : Criteria),
      (∀ kv ∈ m, kv.2.score = c) → (∀ kv ∈ m, 0 ≤ kv.2.weight) →
      (m.map fun kv => kv.2.weight).sum ≠ 0 →
      _calculate_overall_score m criteria = round2 c := by
    intro c m criteria hs hw htw
    have hnn : 0 ≤ (m.map fun kv => kv.2.weight).sum := by
      apply List.sum_nonneg
      intro x hx
      rcases List.mem_map.mp hx with ⟨kv, hkv, rfl⟩
      exact hw kv hkv
    have hpos : 0 < (m.map fun kv => kv.2.weight).sum := lt_of_le_of_ne hnn (Ne.symm htw)
    rw [calc_eq, if_pos hpos]
    have hts : (m.map fun kv => kv.2.score * kv.2.weight).sum
        = c * (m.map fun kv => kv.2.weight).sum := by
      rw [← List.sum_map_mul_left]
      congr 1
      apply List.map_congr_left
      intro kv hkv
      rw [hs kv hkv]
    rw [hts, mul_div_assoc, div_self htw, mul_one]
  refine ⟨?_, ?_, ?_, ?_⟩
  · intro m criteria hw
    have hnn : 0 ≤ (m.map fun kv => kv.2.weight).sum := by
      apply List.sum_nonneg
      intro x hx
      rcases List.mem_map.mp hx with ⟨kv, hkv, rfl⟩
      exact hw kv hkv
    rcases eq_or_lt_of_le hnn with h0 | h0
    · rw [calc_eq, if_neg (by rw [← h0]; exact lt_irrefl 0), if_pos h0.symm]
    · rw [calc_eq, if_pos h0, if_neg (ne_of_gt h0)]
  · intro criteria
    rfl
  · intro m criteria hs hw htw
    rw [hconst 5 m criteria hs hw htw, round2_five]
  · intro m criteria hs hw htw
    rw [hconst 1 m criteria hs hw htw, round2_one]

/-- Witness for claim C4: concrete aggregations discharging the hypotheses. -/
theorem claim_C4_witness :
    _calculate_overall_score
        [("a", ⟨5, Json.null, 0.5⟩), ("b", ⟨5, Json.null, 0.5⟩)] [] = 5
    ∧ _calculate_overall_score [("a", ⟨1, Json.null, 0.5⟩)] [] = 1
    ∧ _calculate_overall_score [] [] = 3 := by
  refine ⟨claim_C4.2.2.1 _ [] ?_ ?_ ?_, claim_C4.2.2.2 _ [] ?_ ?_ ?_, claim_C4.2.1 []⟩
  · intro kv h
    simp only [List.mem_cons, List.not_mem_nil, or_false] at h
    rcases h with rfl | rfl <;> rfl
  · intro kv h
    simp only [List.mem_cons, List.not_mem_nil, or_false] at h
    rcases h with rfl | rfl <;> norm_num
  · norm_num
  · intro kv h
    simp only [List.mem_cons, List.not_mem_nil, or_false] at h
    rcases h with rfl
    rfl
  · intro kv h
    simp only [List.mem_cons, List.not_mem_nil, or_false] at h
    rcases h with rfl
    norm_num
  · norm_num

/-- Claim C7: the inline human-judgment aggregation of app.py computes
exactly `_calculate_overall_score` of the score map it builds from the
slider values and registry weights (the criteria sets used by the app have
positive total weight). -/
theorem claim_C7 (criteria : Criteria) (human_scores : String → ℚ)
    (htw : 0 < (criteria.map fun ki => ki.2.weight).sum) :
    humanOverallOf criteria human_scores =
      _calculate_overall_score (humanScoreMapOf criteria human_scores) criteria := by
  rw [calc_eq]
  have hw : ((humanScoreMapOf criteria human_scores).map fun kv => kv.2.weight)
      = criteria.map fun ki => ki.2.weight := by
    unfold humanScoreMapOf
    rw [List.map_map]
    rfl
  have hs : ((humanScoreMapOf criteria human_scores).map fun kv => kv.2.score * kv.2.weight)
      = criteria.map fun ki => human_scores ki.1 * ki.2.weight := by
    unfold humanScoreMapOf
    rw [List.map_map]
    rfl
  rw [hw, hs, if_pos htw]
  rfl

/-- Witness for claim C7: the marketing criteria with all sliders at 3. -/
theorem claim_C7_witness :
    humanOverallOf MARKETING_COPY_CRITERIA (fun _ => 3) =
      _calculate_overall_score (humanScoreMapOf MARKETING_COPY_CRITERIA fun _ => 3)
        MARKETING_COPY_CRITERIA :=
  claim_C7 MARKETING_COPY_CRITERIA (fun _ => 3)
    (by norm_num [MARKETING_COPY_CRITERIA])

/-- Claim C8: serialization round-trips: deserializing the serialized form
of any record (with or without the optional human fields, which serialize
to null when absent) reproduces the record field-for-field. -/
theorem claim_C8 (e : Evaluation) : Evaluation.from_dict (Evaluation.to_dict e) = e := by
  have hmap : ∀ l : ScoreMap,
      ((l.map fun kv => (kv.1, kv.2.to_dict)).map fun kv => (kv.1, kv.2.toScore)) = l := by
    intro l
    induction l with
    | nil => rfl
    | cons kv t ih =>
      rw [List.map_cons, List.map_cons, ih]
      rfl
  apply Evaluation.ext
  all_goals try rfl
  all_goals try exact hmap e.ai_scores
  all_goals
    show ((e.human_scores.map fun m => m.map fun kv => (kv.1, kv.2.to_dict)).map
        fun m => m.map fun kv => (kv.1, kv.2.toScore)) = e.human_scores
    cases e.human_scores with
    | none => rfl
    | some m => exact congrArg some (hmap m)

/-- Python membership and subscripting agree on dicts: `key in d` holds
exactly when `d[key]` finds a value. -/
theorem pyIn_obj_pyIndex (kvs : List (String × Json)) (key : String) :
    pyIn key (.obj kvs) = some ((pyIndex (.obj kvs) key).isSome) := by
  show some (kvs.any fun kv => kv.1 == key)
      = some ((kvs.find? fun kv => kv.1 == key).map Prod.snd).isSome
  congr 1
  induction kvs with
  | nil => rfl
  | cons kv t ih =>
    by_cases h : (kv.1 == key) = true
    · simp [List.find?, h]
    · have h2 : (kv.1 == key) = false := by simpa using h
      simp [List.find?, h2, ih]

/-- Is a parsed per-criterion entry unusable for the parsing loop: no
coercible `score`, or no `explanation`?  (The condition whose failure the
loop's `try/except` converts into the full error fallback.) -/
def entryBroken (e : Json) : Bool :=
  !(((pyIndex e "score").bind pyFloat).isSome && (pyIndex e "explanation").isSome)

/-- The per-criterion behavior the specification describes for a response
that parsed as a JSON object: a present key yields its coerced score and its
explanation as-is with the registry weight; an absent key individually falls
back.  Only criterion keys are consulted, so keys of the object outside the
criteria set cannot influence the result. -/
def entryFromObject (kvs : List (String × Json)) (ki : String × CriterionInfo) :
    String × CriterionScore :=
  match pyIndex (.obj kvs) ki.1 with
  | none => (ki.1, ⟨3, Json.str "Score not provided by evaluator", ki.2.weight⟩)
  | some e =>
    match (pyIndex e "score").bind pyFloat, pyIndex e "explanation" with
    | some s, some ex => (ki.1, ⟨s, ex, ki.2.weight⟩)
    | _, _ => (ki.1, ⟨3, Json.str "Score not provided by evaluator", ki.2.weight⟩)

theorem entryResult_obj_wf {kvs : List (String × Json)} {key : String} {info : CriterionInfo}
    (hk : (match pyIndex (.obj kvs) key with
           | some e => !(entryBroken e)
           | none => true) = true) :
    entryResult (.obj kvs) key info = some (entryFromObject kvs (key, info)).2 := by
  unfold entryResult entryFromObject
  rw [pyIn_obj_pyIndex]
  cases hf : pyIndex (.obj kvs) key with
  | none => rfl
  | some e =>
    rw [hf] at hk
    unfold entryBroken at hk
    simp only [Bool.not_not] at hk
    rw [Bool.and_eq_true] at hk
    rcases h1 : (pyIndex e "score").bind pyFloat with _ | s
    · rw [h1] at hk
      simp at hk
    · rcases h2 : pyIndex e "explanation" with _ | ex
      · rw [h1, h2] at hk
        simp at hk
      · simp [h1, h2]

theorem entryFromObject_fst (kvs : List (String × Json)) (ki : String × CriterionInfo) :
    (entryFromObject kvs ki).1 = ki.1 := by
  unfold entryFromObject
  cases pyIndex (.obj kvs) ki.1 with
  | none => rfl
  | some e =>
    show (match (pyIndex e "score").bind pyFloat, pyIndex e "explanation" with
          | some s, some ex => (ki.1, (⟨s, ex, ki.2.weight⟩ : CriterionScore))
          | _, _ =>
            (ki.1, (⟨3, Json.str "Score not provided by evaluator",
              ki.2.weight⟩ : CriterionScore))).1 = ki.1
    cases (pyIndex e "score").bind pyFloat <;> cases pyIndex e "explanation" <;> rfl

theorem entryFromObject_pair (kvs : List (String × Json)) (ki : String × CriterionInfo) :
    (ki.1, (entryFromObject kvs ki).2) = entryFromObject kvs ki :=
  Prod.ext (entryFromObject_fst kvs ki).symm rfl

theorem buildScores_obj_wf {kvs : List (String × Json)} {criteria : Criteria}
    (hwf : criteria.all (fun ki =>
      match pyIndex (.obj kvs) ki.1 with
      | some e => !(entryBroken e)
      | none => true) = true) :
    buildScores (.obj kvs) criteria = some (criteria.map (entryFromObject kvs)) := by
  induction criteria with
  | nil => rfl
  | cons ki rest ih =>
    rw [List.all_cons, Bool.and_eq_true] at hwf
    obtain ⟨hk, hrest⟩ := hwf
    obtain ⟨key, info⟩ := ki
    simp only [buildScores, entryResult_obj_wf hk, ih hrest, List.map_cons]
    rw [show (key, (entryFromObject kvs (key, info)).2) = entryFromObject kvs (key, info)
      from entryFromObject_pair kvs (key, info)]

theorem buildScores_obj_broken {kvs : List (String × Json)} {criteria : Criteria}
    (hbad : criteria.any (fun ki =>
      match pyIndex (.obj kvs) ki.1 with
      | some e => entryBroken e
      | none => false) = true) :
    buildScores (.obj kvs) criteria = none := by
  induction criteria with
  | nil => simp at hbad
  | cons ki rest ih =>
    rw [List.any_cons, Bool.or_eq_true] at hbad
    obtain ⟨key, info⟩ := ki
    rcases hbad with hk | hrest
    · have hk3 : (match pyIndex (Json.obj kvs) key with
          | some e => entryBroken e
          | none => false) = true := hk
      have hres : entryResult (.obj kvs) key info = none := by
        unfold entryResult
        rw [pyIn_obj_pyIndex]
        cases hf : pyIndex (.obj kvs) key with
        | none => simp [hf] at hk3
        | some e =>
          simp only [hf] at hk3
          have hk2 : entryBroken e = true := hk3
          unfold entryBroken at hk2
          rcases h1 : (pyIndex e "score").bind pyFloat with _ | s
          · simp [h1]
          · rcases h2 : pyIndex e "explanation" with _ | ex
            · simp [h1, h2]
            · rw [h1, h2] at hk2
              simp at hk2
      simp only [buildScores, hres]
    · simp only [buildScores, ih hrest]
      cases entryResult (.obj kvs) key info <;> rfl

/-- Claim C3: when the raw text parses as a JSON object whose present
criterion entries are well formed, each absent criterion key individually
falls back to the neutral score with explanation "Score not provided by
evaluator" and its registry weight, while each present key yields its score
coerced to a float and its explanation copied as-is, the weight always
coming from the registry; object keys outside the criteria set are ignored
(the result reads the object only at criterion keys). -/
theorem claim_C3 (raw : List Char) (criteria : Criteria) (kvs : List (String × Json))
    (hobj : jsonLoads (preprocessResponse raw) = some (.obj kvs))
    (hwf : criteria.all (fun ki =>
      match pyIndex (.obj kvs) ki.1 with
      | some e => !(entryBroken e)
      | none => true) = true) :
    _parse_claude_response raw criteria = criteria.map (entryFromObject kvs) := by
  unfold _parse_claude_response
  rw [hobj]
  show (buildScores (.obj kvs) criteria).getD (errorFallbackMap criteria)
      = criteria.map (entryFromObject kvs)
  rw [buildScores_obj_wf hwf]
  rfl

/-- A judge response with one well-formed criterion entry and one unknown
extra key, used to instantiate claim C3. -/
def raw3ex : List Char :=
  ("\x7b\"persuasiveness\": \x7b\"score\": 4.5, \"explanation\": \"good\"\x7d, \"unknown_criterion\": 7\x7d").data

/-- The JSON object that `raw3ex` parses to. -/
def kvs3ex : List (String × Json) :=
  [ ("persuasiveness", Json.obj [("score", Json.num 45 (-1)), ("explanation", Json.str "good")]),
    ("unknown_criterion", Json.num 7 0) ]

/-- Witness for claim C3: the hypotheses hold for `raw3ex` and the marketing
criteria, and the resulting map is the expected one (present key parsed,
absent keys individually defaulted, extra key ignored). -/
theorem claim_C3_witness :
    _parse_claude_response raw3ex MARKETING_COPY_CRITERIA =
      MARKETING_COPY_CRITERIA.map (entryFromObject kvs3ex)
    ∧ MARKETING_COPY_CRITERIA.map (entryFromObject kvs3ex) =
      [ ("cultural_appropriateness",
          ⟨3, Json.str "Score not provided by evaluator", 0.30⟩),
        ("persuasiveness", ⟨qOfSci 45 (-1), Json.str "good", 0.25⟩),
        ("brand_voice", ⟨3, Json.str "Score not provided by evaluator", 0.20⟩),
        ("grammar_fluency", ⟨3, Json.str "Score not provided by evaluator", 0.15⟩),
        ("semantic_accuracy", ⟨3, Json.str "Score not provided by evaluator", 0.10⟩) ] :=
  ⟨claim_C3 raw3ex MARKETING_COPY_CRITERIA kvs3ex rfl rfl, rfl⟩

/-- Claim C10 (implicit): a single corrupted entry poisons the whole parse.
If the raw text parses as a JSON object but some criterion key present in it
has no coercible `score` or no `explanation`, the parser returns the full
error fallback for every criterion, discarding the well-formed entries. -/
theorem claim_C10 (raw : List Char) (criteria : Criteria) (kvs : List (String × Json))
    (hobj : jsonLoads (preprocessResponse raw) = some (.obj kvs))
    (hbad : criteria.any (fun ki =>
      match pyIndex (.obj kvs) ki.1 with
      | some e => entryBroken e
      | none => false) = true) :
    _parse_claude_response raw criteria =
      criteria.map fun ki => (ki.1, ⟨3, Json.str "Error parsing response", ki.2.weight⟩) := by
  unfold _parse_claude_response
  rw [hobj]
  show (buildScores (.obj kvs) criteria).getD (errorFallbackMap criteria)
      = criteria.map fun ki => (ki.1, ⟨3, Json.str "Error parsing response", ki.2.weight⟩)
  rw [buildScores_obj_broken hbad]
  rfl

/-- A judge response whose only criterion entry lacks a `score` field, used
to instantiate claim C10: the other four criteria lose their individual
"not provided" fallback and get the error fallback instead. -/
def raw10ex : List Char :=
  ("\x7b\"cultural_appropriateness\": \x7b\"explanation\": \"x\"\x7d\x7d").data

/-- The JSON object that `raw10ex` parses to. -/
def kvs10ex : List (String × Json) :=
  [("cultural_appropriateness", Json.obj [("explanation", Json.str "x")])]

/-- Witness for claim C10: a response whose single present entry is missing
its score poisons the whole parse for the marketing criteria. -/
theorem claim_C10_witness :
    _parse_claude_response raw10ex MARKETING_COPY_CRITERIA =
      MARKETING_COPY_CRITERIA.map fun ki =>
        (ki.1, ⟨3, Json.str "Error parsing response", ki.2.weight⟩) :=
  claim_C10 raw10ex MARKETING_COPY_CRITERIA kvs10ex rfl rfl

/-- A judge response whose single entry carries an out-of-range score of
100, used to refute claim C5. -/
def respOutOfRange : List Char :=
  ("\x7b\"cultural_appropriateness\": \x7b\"score\": 100, \"explanation\": \"x\"\x7d\x7d").data

/-- Counterexample to claim C5: `evaluate_content` performs no clamping, so
an out-of-range judge score flows into the record; on `respOutOfRange` the
produced Evaluation has aiOverallScore 32.1, far outside [1.0, 5.0]. -/
theorem claim_C5_counterexample :
    (evaluate_content "id0" "t0" "content0" "marketing_copy" "" respOutOfRange).map
        Evaluation.ai_overall_score = some (321 / 10 : ℚ)
    ∧ ¬ ((321 / 10 : ℚ) ≤ 5) := by
  constructor
  · have hparse : _parse_claude_response respOutOfRange MARKETING_COPY_CRITERIA =
        [ ("cultural_appropriateness", ⟨qOfSci 100 0, Json.str "x", 0.30⟩),
          ("persuasiveness", ⟨3, Json.str "Score not provided by evaluator", 0.25⟩),
          ("brand_voice", ⟨3, Json.str "Score not provided by evaluator", 0.20⟩),
          ("grammar_fluency", ⟨3, Json.str "Score not provided by evaluator", 0.15⟩),
          ("semantic_accuracy", ⟨3, Json.str "Score not provided by evaluator", 0.10⟩) ] := rfl
    have h1 : (evaluate_content "id0" "t0" "content0" "marketing_copy" "" respOutOfRange).map
        Evaluation.ai_overall_score
        = some (_calculate_overall_score
            (_parse_claude_response respOutOfRange MARKETING_COPY_CRITERIA)
            MARKETING_COPY_CRITERIA) := rfl
    rw [h1, hparse, calc_eq]
    rw [if_pos (by norm_num)]
    norm_num [qOfSci, round2, round_eq]
  · norm_num

theorem eval_record_bound (rt : List Char) (criteria : Criteria)
    (hcw : ∀ w ∈ criteria.map (fun ki => ki.2.weight), (0 : ℚ) ≤ w)
    (hs : ∀ kv ∈ _parse_claude_response rt criteria, 1 ≤ kv.2.score ∧ kv.2.score ≤ 5) :
    1 ≤ _calculate_overall_score (_parse_claude_response rt criteria) criteria
    ∧ _calculate_overall_score (_parse_claude_response rt criteria) criteria ≤ 5 := by
  apply calc_bound
  · intro kv hkv
    have hmem : kv.2.weight ∈ (_parse_claude_response rt criteria).map fun kv => kv.2.weight :=
      List.mem_map_of_mem _ hkv
    rw [parse_weights] at hmem
    exact hcw _ hmem
  · exact hs

/-- Claim C5 (amended): for every record produced by evaluate, whenever
every criterion score in the record lies in [1.0, 5.0] — which holds for
conforming judge output and for both fallbacks, but is not enforced against
out-of-range judge scores, see the counterexample — the record's
aiOverallScore lies in [1.0, 5.0]. -/
theorem claim_C5 (id timestamp content use_case context : String)
    (response_text : List Char) (e : Evaluation)
    (he : evaluate_content id timestamp content use_case context response_text = some e)
    (hs : ∀ kv ∈ e.ai_scores, 1 ≤ kv.2.score ∧ kv.2.score ≤ 5) :
    1 ≤ e.ai_overall_score ∧ e.ai_overall_score ≤ 5 := by
  unfold evaluate_content _get_criteria at he
  by_cases h1 : use_case = "marketing_copy"
  · rw [if_pos h1, Option.map_some'] at he
    have he2 := Option.some.inj he
    rw [← he2] at hs ⊢
    refine eval_record_bound response_text MARKETING_COPY_CRITERIA ?_ hs
    intro w hw
    simp only [MARKETING_COPY_CRITERIA, List.map_cons, List.map_nil, List.mem_cons,
      List.not_mem_nil, or_false] at hw
    rcases hw with rfl | rfl | rfl | rfl | rfl <;> norm_num
  · rw [if_neg h1] at he
    by_cases h2 : use_case = "bilingual_compliance"
    · rw [if_pos h2, Option.map_some'] at he
      have he2 := Option.some.inj he
      rw [← he2] at hs ⊢
      refine eval_record_bound response_text BILINGUAL_COMPLIANCE_CRITERIA ?_ hs
      intro w hw
      simp only [BILINGUAL_COMPLIANCE_CRITERIA, List.map_cons, List.map_nil, List.mem_cons,
        List.not_mem_nil, or_false] at hw
      rcases hw with rfl | rfl | rfl | rfl | rfl <;> norm_num
    · rw [if_neg h2] at he
      exact absurd he (by simp)

/-- A conforming judge response scoring every marketing criterion 5. -/
def resp5ex : List Char :=
  ("\x7b\"cultural_appropriateness\": \x7b\"score\": 5, \"explanation\": \"a\"\x7d, " ++
   "\"persuasiveness\": \x7b\"score\": 5, \"explanation\": \"b\"\x7d, " ++
   "\"brand_voice\": \x7b\"score\": 5, \"explanation\": \"c\"\x7d, " ++
   "\"grammar_fluency\": \x7b\"score\": 5, \"explanation\": \"d\"\x7d, " ++
   "\"semantic_accuracy\": \x7b\"score\": 5, \"explanation\": \"e\"\x7d\x7d").data

/-- Fallback record used only to extract the value of an `Option Evaluation`
at a point where it is known to be `some`. -/
def evalFallback : Evaluation :=
  { id := "", timestamp := "", use_case := "", content := "", context := "",
    ai_scores := [], ai_overall_score := 3, ai_decision := "human_review" }

/-- The record evaluate produces for `resp5ex`. -/
def e5ex : Evaluation :=
  (evaluate_content "i" "t" "c" "marketing_copy" "" resp5ex).getD evalFallback

set_option maxRecDepth 8192 in
/-- Witness for claim C5 (amended): a concrete all-fives evaluation, whose
scores are all in range, has its overall score in range. -/
theorem claim_C5_witness : 1 ≤ e5ex.ai_overall_score ∧ e5ex.ai_overall_score ≤ 5 :=
  claim_C5 "i" "t" "c" "marketing_copy" "" resp5ex e5ex rfl (by
    have h : e5ex.ai_scores =
        [ ("cultural_appropriateness", ⟨qOfSci 5 0, Json.str "a", 0.30⟩),
          ("persuasiveness", ⟨qOfSci 5 0, Json.str "b", 0.25⟩),
          ("brand_voice", ⟨qOfSci 5 0, Json.str "c", 0.20⟩),
          ("grammar_fluency", ⟨qOfSci 5 0, Json.str "d", 0.15⟩),
          ("semantic_accuracy", ⟨qOfSci 5 0, Json.str "e", 0.10⟩) ] := rfl
    rw [h]
    intro kv hkv
    simp only [List.mem_cons, List.not_mem_nil, or_false] at hkv
    rcases hkv with rfl | rfl | rfl | rfl | rfl <;>
      exact ⟨by norm_num [qOfSci], by norm_num [qOfSci]⟩)

theorem round2_ge_one {x : ℚ} (h : 1 ≤ x) : 1 ≤ round2 x := by
  calc (1 : ℚ) = round2 1 := round2_one.symm
    _ ≤ round2 x := round2_le_round2 h

/-- Claim C6: attaching a human judgment is at-most-once.  A first
attachment on a fresh record succeeds and writes the four human fields; a
second attachment on the resulting record fails with AlreadyJudged and, the
attachment being modelled functionally, returns no modified record, so the
first call's values stand unchanged.  (The slider scores are at least 1 and
the registry weights are nonnegative with positive total, which is what
makes the written overall score truthy for the guard.) -/
theorem claim_C6 (e : Evaluation) (criteria : Criteria)
    (s1 s2 : String → ℚ) (f1 f2 : String)
    (hfresh : e.human_overall_score = none)
    (hw : ∀ ki ∈ criteria, (0 : ℚ) ≤ ki.2.weight)
    (htw : 0 < (criteria.map fun ki => ki.2.weight).sum)
    (hs : ∀ ki ∈ criteria, 1 ≤ s1 ki.1) :
    attachHumanJudgment e criteria s1 f1 = .ok (attachedRecord e criteria s1 f1)
    ∧ (attachedRecord e criteria s1 f1).human_scores = some (humanScoreMapOf criteria s1)
    ∧ (attachedRecord e criteria s1 f1).human_overall_score
        = some (humanOverallOf criteria s1)
    ∧ (attachedRecord e criteria s1 f1).human_decision
        = some (get_decision (humanOverallOf criteria s1))
    ∧ (attachedRecord e criteria s1 f1).human_feedback = some f1
    ∧ attachHumanJudgment (attachedRecord e criteria s1 f1) criteria s2 f2
        = .error .AlreadyJudged := by
  have hov : 1 ≤ humanOverallOf criteria s1 := by
    unfold humanOverallOf
    apply round2_ge_one
    have hts : (criteria.map fun ki => ki.2.weight).sum ≤
        (criteria.map fun ki => s1 ki.1 * ki.2.weight).sum := by
      apply List.sum_le_sum
      intro ki hki
      exact le_mul_of_one_le_left (hw ki hki) (hs ki hki)
    exact (le_div_iff₀ htw).mpr (by linarith)
  have hne : humanOverallOf criteria s1 ≠ 0 := by linarith
  have htruthy : pyTruthyQ (some (humanOverallOf criteria s1)) = true := by
    show (!decide (humanOverallOf criteria s1 = 0)) = true
    rw [decide_eq_false hne]
    rfl
  refine ⟨?_, rfl, rfl, rfl, rfl, ?_⟩
  · unfold attachHumanJudgment
    rw [hfresh]
    rfl
  · unfold attachHumanJudgment
    have hfield : (attachedRecord e criteria s1 f1).human_overall_score
        = some (humanOverallOf criteria s1) := rfl
    rw [hfield, htruthy]
    rfl

/-- A fresh evaluation record with no human fields, used to instantiate
claim C6. -/
def e0ex : Evaluation :=
  { id := "e0", timestamp := "t0", use_case := "marketing_copy", content := "c",
    context := "", ai_scores := [], ai_overall_score := 3, ai_decision := "human_review" }

/-- Witness for claim C6: a concrete fresh record, the marketing criteria,
and sliders all at 3. -/
theorem claim_C6_witness :
    attachHumanJudgment e0ex MARKETING_COPY_CRITERIA (fun _ => 3) "fb1"
        = .ok (attachedRecord e0ex MARKETING_COPY_CRITERIA (fun _ => 3) "fb1")
    ∧ (attachedRecord e0ex MARKETING_COPY_CRITERIA (fun _ => 3) "fb1").human_scores
        = some (humanScoreMapOf MARKETING_COPY_CRITERIA fun _ => 3)
    ∧ (attachedRecord e0ex MARKETING_COPY_CRITERIA (fun _ => 3) "fb1").human_overall_score
        = some (humanOverallOf MARKETING_COPY_CRITERIA fun _ => 3)
    ∧ (attachedRecord e0ex MARKETING_COPY_CRITERIA (fun _ => 3) "fb1").human_decision
        = some (get_decision (humanOverallOf MARKETING_COPY_CRITERIA fun _ => 3))
    ∧ (attachedRecord e0ex MARKETING_COPY_CRITERIA (fun _ => 3) "fb1").human_feedback
        = some "fb1"
    ∧ attachHumanJudgment (attachedRecord e0ex MARKETING_COPY_CRITERIA (fun _ => 3) "fb1")
        MARKETING_COPY_CRITERIA (fun _ => 4) "fb2" = .error .AlreadyJudged :=
  claim_C6 e0ex MARKETING_COPY_CRITERIA (fun _ => 3) (fun _ => 4) "fb1" "fb2" rfl
    (by
      intro ki hki
      simp only [MARKETING_COPY_CRITERIA, List.mem_cons, List.not_mem_nil, or_false] at hki
      rcases hki with rfl | rfl | rfl | rfl | rfl <;> norm_num)
    (by norm_num [MARKETING_COPY_CRITERIA])
    (by
      intro ki hki
      norm_num)

/-- Claim C9: fence-stripping identity.  Wrapping a JSON text in a leading
fence marker line and a trailing fence marker line parses to exactly the
same score map as the unwrapped text, for every criteria set. -/
theorem claim_C9 (lang j : List Char) (criteria : Criteria)
    (hlang : ∀ c ∈ lang, c ≠ '\n')
    (hj : (jsonLoads j).isSome = true) :
    _parse_claude_response (("```".data ++ lang) ++ '\n' :: (j ++ '\n' :: "```".data)) criteria
      = _parse_claude_response j criteria := by
  unfold _parse_claude_response
  rw [preprocess_wrap hlang]
  have hnf := jsonLoads_not_fence hj
  have hpp : preprocessResponse j = pyStrip j := by
    unfold preprocessResponse
    simp [hnf]
  rw [hpp, jsonLoads_pyStrip]

/-- A JSON text used to instantiate claim C9. -/
def raw9ex : List Char :=
  ("\x7b\"completeness\": \x7b\"score\": 5, \"explanation\": \"ok\"\x7d\x7d").data

/-- Witness for claim C9: a concrete fenced response parses like its
unfenced JSON body. -/
theorem claim_C9_witness :
    _parse_claude_response
        (("```".data ++ "json".data) ++ '\n' :: (raw9ex ++ '\n' :: "```".data))
        BILINGUAL_COMPLIANCE_CRITERIA
      = _parse_claude_response raw9ex BILINGUAL_COMPLIANCE_CRITERIA :=
  claim_C9 ("json".data) raw9ex BILINGUAL_COMPLIANCE_CRITERIA (by decide) rfl

end ContentEval
